import Mathlib

/-!
Shallow embedding of the minivtun crypto library core (src/library.c):
the cipher registry, the MD5-based key material deriver, and the datagram
transform engine (zero padding, fixed IV, CBC / stream transform).

Byte buffers are modelled as List Nat with every element a byte value.
The OpenSSL EVP block-cipher primitives (AES, DES, DESX key schedules and
block permutations, the RC4 keystream) are external library code; the
development is parametric in them: an EVP cipher is a record carrying the
key length, the native IV length, and the update functions with padding
disabled, exactly the data the C code consumes through the EVP interface.
CBC chaining and stream XOR, which EVP performs for the ciphers in the
registry table, are modelled concretely below.
-/

/-- Cipher identifiers of the five entries of the static table
cipher_pairs in library.c. -/
inductive CipherId
  | aes128
  | aes256
  | des
  | desx
  | rc4
deriving DecidableEq, Repr

/-- Lowercase an ASCII character, modelling tolower as used by strcasecmp. -/
def ascii_lower (c : Char) : Char :=
  if 'A' ≤ c ∧ c ≤ 'Z' then Char.ofNat (c.toNat + 32) else c

/-- Character list of a string with ASCII case folded. -/
def lower_chars (s : String) : List Char :=
  s.data.map ascii_lower

/-- Case-insensitive string equality, modelling strcasecmp(a, b) == 0. -/
def strcaseeq (a b : String) : Bool :=
  lower_chars a == lower_chars b

/-- Static registry table, from cipher_pairs in library.c. -/
def cipher_pairs : List (String × CipherId) :=
  [("aes-128", CipherId.aes128),
   ("aes-256", CipherId.aes256),
   ("des", CipherId.des),
   ("desx", CipherId.desx),
   ("rc4", CipherId.rc4)]

/-- Registry lookup, from get_crypto_type in library.c: linear scan with
strcasecmp, first match wins, NULL (none) when nothing matches. -/
def get_crypto_type (name : String) : Option CipherId :=
  (List.find? (fun p => strcaseeq p.1 name) cipher_pairs).map Prod.snd

/-- Key length in bytes reported by EVP_CIPHER_key_length for each registry
cipher (OpenSSL constants: AES-128-CBC 16, AES-256-CBC 32, DES-CBC 8,
DESX-CBC 24, RC4 16). -/
def evp_key_length : CipherId → Nat
  | CipherId.aes128 => 16
  | CipherId.aes256 => 32
  | CipherId.des => 8
  | CipherId.desx => 24
  | CipherId.rc4 => 16

/-- IV length in bytes reported by EVP_CIPHER_iv_length for each registry
cipher (OpenSSL constants: the CBC ciphers use their block size, RC4 is a
stream cipher and reports 0). -/
def evp_iv_length : CipherId → Nat
  | CipherId.aes128 => 16
  | CipherId.aes256 => 16
  | CipherId.des => 8
  | CipherId.desx => 8
  | CipherId.rc4 => 0

/-- Modelled from the spec: CRYPTO_MAX_KEY_SIZE comes from library.h, which
is not under src/; the spec fixes the IV seed constant at 32 bytes and the
engine buffers are sized by these bounds, value 32 in the repository. -/
def CRYPTO_MAX_KEY_SIZE : Nat := 32

/-- Modelled from the spec: CRYPTO_MAX_BLOCK_SIZE comes from library.h,
which is not under src/; the 32-entry initializer of crypto_ivec_initdata
fills an array declared with this size, value 32. -/
def CRYPTO_MAX_BLOCK_SIZE : Nat := 32

/-- Fixed IV seed constant, byte for byte from crypto_ivec_initdata in
library.c. -/
def crypto_ivec_initdata : List Nat :=
  [0xab, 0xcd, 0xef, 0x12, 0x34, 0x56, 0x78, 0x90,
   0xab, 0xcd, 0xef, 0x12, 0x34, 0x56, 0x78, 0x90,
   0xab, 0xcd, 0xef, 0x12, 0x34, 0x56, 0x78, 0x90,
   0xab, 0xcd, 0xef, 0x12, 0x34, 0x56, 0x78, 0x90]

/-- Zero padding step, from the CRYPTO_DATA_PADDING macro in library.c:
when the logical length is not a multiple of bs, append bs - (len mod bs)
zero bytes; otherwise leave the buffer untouched. -/
def CRYPTO_DATA_PADDING (data : List Nat) (bs : Nat) : List Nat :=
  let last_len := data.length % bs
  if last_len = 0 then data
  else data ++ List.replicate (bs - last_len) 0

/-- EVP cipher handle as the C code consumes it: lengths plus the two
update functions (key, iv, data to transformed data) with library padding
disabled, compressing EncryptUpdate and EncryptFinal into one map. -/
structure EVPCipher where
  key_length : Nat
  iv_length : Nat
  encryptUpdate : List Nat → List Nat → List Nat → List Nat
  decryptUpdate : List Nat → List Nat → List Nat → List Nat

/-- Effective IV length of the engine: the native one, or 16 when the
cipher reports 0, from the iv_len == 0 test in datagram_encrypt and
datagram_decrypt. -/
def effective_iv_len (c : EVPCipher) : Nat :=
  if c.iv_length = 0 then 16 else c.iv_length

/-- Datagram encryption, from datagram_encrypt in library.c: build the IV
from the fixed seed, zero-pad the input in place, run the cipher with
padding disabled, report the output and its length. -/
def datagram_encrypt (key : List Nat) (cptype : EVPCipher) (input : List Nat) :
    List Nat × Nat :=
  let iv_len := effective_iv_len cptype
  let iv := crypto_ivec_initdata.take iv_len
  let padded := CRYPTO_DATA_PADDING input iv_len
  let out := cptype.encryptUpdate key iv padded
  (out, out.length)

/-- Datagram decryption, from datagram_decrypt in library.c: identical IV
construction and padding step, then the decrypting update. -/
def datagram_decrypt (key : List Nat) (cptype : EVPCipher) (input : List Nat) :
    List Nat × Nat :=
  let iv_len := effective_iv_len cptype
  let iv := crypto_ivec_initdata.take iv_len
  let padded := CRYPTO_DATA_PADDING input iv_len
  let out := cptype.decryptUpdate key iv padded
  (out, out.length)

/-- Bytewise XOR of two buffers (truncating to the shorter one). -/
def xorBytes (a b : List Nat) : List Nat :=
  List.zipWith (fun x y => x ^^^ y) a b

/-- Split a buffer into consecutive blocks of size bs. -/
def toBlocks (bs : Nat) (l : List Nat) : List (List Nat) :=
  if h1 : l = [] then []
  else if h2 : bs = 0 then [l]
  else l.take bs :: toBlocks bs (l.drop bs)
termination_by l.length
decreasing_by
  simp only [List.length_drop]
  exact Nat.sub_lt (List.length_pos.mpr h1) (Nat.pos_of_ne_zero h2)

/-- CBC chaining on a block list: each ciphertext block is the block
permutation applied to the plaintext block XOR the previous ciphertext
block, seeded with the IV. -/
def cbc_enc_blocks (E : List Nat → List Nat) : List Nat → List (List Nat) → List (List Nat)
  | _, [] => []
  | prev, p :: ps =>
    let c := E (xorBytes p prev)
    c :: cbc_enc_blocks E c ps

/-- CBC unchaining on a block list: each plaintext block is the inverse
permutation of the ciphertext block, XOR the previous ciphertext block. -/
def cbc_dec_blocks (D : List Nat → List Nat) : List Nat → List (List Nat) → List (List Nat)
  | _, [] => []
  | prev, c :: cs => xorBytes (D c) prev :: cbc_dec_blocks D c cs

/-- CBC mode over a whole buffer, the EVP behavior for the *_cbc ciphers
with padding disabled: block size is the IV length. -/
def cbc_encrypt (E : List Nat → List Nat) (iv data : List Nat) : List Nat :=
  (cbc_enc_blocks E iv (toBlocks iv.length data)).flatten

/-- CBC decryption over a whole buffer. -/
def cbc_decrypt (D : List Nat → List Nat) (iv data : List Nat) : List Nat :=
  (cbc_dec_blocks D iv (toBlocks iv.length data)).flatten

/-- Stream cipher XOR, the EVP behavior for RC4: byte i of the output is
byte i of the input XOR keystream byte i. -/
def stream_xor (ks : Nat → Nat) : Nat → List Nat → List Nat
  | _, [] => []
  | i, b :: rest => (b ^^^ ks i % 256) :: stream_xor ks (i + 1) rest

/-- EVP cipher model for each registry entry, parametric in the external
block primitives (blockE, blockD: cipher, key, block to block) and in the
RC4 keystream (key, position to keystream byte): the four CBC entries run
CBC mode over their block primitive, RC4 XORs the keystream both ways. -/
def evp_cipher_model (blockE blockD : CipherId → List Nat → List Nat → List Nat)
    (rc4ks : List Nat → Nat → Nat) (cid : CipherId) : EVPCipher :=
  match cid with
  | CipherId.rc4 =>
    { key_length := evp_key_length CipherId.rc4
      iv_length := evp_iv_length CipherId.rc4
      encryptUpdate := fun key _iv data => stream_xor (rc4ks key) 0 data
      decryptUpdate := fun key _iv data => stream_xor (rc4ks key) 0 data }
  | c =>
    { key_length := evp_key_length c
      iv_length := evp_iv_length c
      encryptUpdate := fun key iv data => cbc_encrypt (blockE c key) iv data
      decryptUpdate := fun key iv data => cbc_decrypt (blockD c key) iv data }

/-- Little-endian byte serialization of a machine word: n bytes, least
significant first. -/
def toLEBytes (n x : Nat) : List Nat :=
  (List.range n).map (fun i => x >>> (8 * i) % 256)

/-- Little-endian 32-bit word from the first four bytes of a buffer. -/
def fromLEWord (l : List Nat) : Nat :=
  l.getD 0 0 + l.getD 1 0 * 256 + l.getD 2 0 * 65536 + l.getD 3 0 * 16777216

/-- Left rotation of a 32-bit word. -/
def rotl32 (x n : Nat) : Nat :=
  ((x <<< n) ||| (x >>> (32 - n))) % 4294967296

/-- Per-round shift amounts of MD5 (RFC 1321, the algorithm behind the
OpenSSL MD5 used by library.c). -/
def md5_s : List Nat :=
  [7, 12, 17, 22, 7, 12, 17, 22, 7, 12, 17, 22, 7, 12, 17, 22,
   5, 9, 14, 20, 5, 9, 14, 20, 5, 9, 14, 20, 5, 9, 14, 20,
   4, 11, 16, 23, 4, 11, 16, 23, 4, 11, 16, 23, 4, 11, 16, 23,
   6, 10, 15, 21, 6, 10, 15, 21, 6, 10, 15, 21, 6, 10, 15, 21]

/-- Per-round additive constants of MD5 (RFC 1321). -/
def md5_K : List Nat :=
  [0xd76aa478, 0xe8c7b756, 0x242070db, 0xc1bdceee,
   0xf57c0faf, 0x4787c62a, 0xa8304613, 0xfd469501,
   0x698098d8, 0x8b44f7af, 0xffff5bb1, 0x895cd7be,
   0x6b901122, 0xfd987193, 0xa679438e, 0x49b40821,
   0xf61e2562, 0xc040b340, 0x265e5a51, 0xe9b6c7aa,
   0xd62f105d, 0x02441453, 0xd8a1e681, 0xe7d3fbc8,
   0x21e1cde6, 0xc33707d6, 0xf4d50d87, 0x455a14ed,
   0xa9e3e905, 0xfcefa3f8, 0x676f02d9, 0x8d2a4c8a,
   0xfffa3942, 0x8771f681, 0x6d9d6122, 0xfde5380c,
   0xa4beea44, 0x4bdecfa9, 0xf6bb4b60, 0xbebfbc70,
   0x289b7ec6, 0xeaa127fa, 0xd4ef3085, 0x04881d05,
   0xd9d4d039, 0xe6db99e5, 0x1fa27cf8, 0xc4ac5665,
   0xf4292244, 0x432aff97, 0xab9423a7, 0xfc93a039,
   0x655b59c3, 0x8f0ccc92, 0xffeff47d, 0x85845dd1,
   0x6fa87e4f, 0xfe2ce6e0, 0xa3014314, 0x4e0811a1,
   0xf7537e82, 0xbd3af235, 0x2ad7d2bb, 0xeb86d391]

/-- One MD5 round on state (a, b, c, d) with message schedule M. -/
def md5_round (M : List Nat) (st : Nat × Nat × Nat × Nat) (i : Nat) :
    Nat × Nat × Nat × Nat :=
  let a := st.1
  let b := st.2.1
  let c := st.2.2.1
  let d := st.2.2.2
  let fg : Nat × Nat :=
    if i < 16 then ((b &&& c) ||| ((b ^^^ 0xffffffff) &&& d), i)
    else if i < 32 then ((d &&& b) ||| ((d ^^^ 0xffffffff) &&& c), (5 * i + 1) % 16)
    else if i < 48 then (b ^^^ c ^^^ d, (3 * i + 5) % 16)
    else (c ^^^ (b ||| (d ^^^ 0xffffffff)), (7 * i) % 16)
  let tmp := (fg.1 + a + md5_K.getD i 0 + M.getD fg.2 0) % 4294967296
  (d, (b + rotl32 tmp (md5_s.getD i 0)) % 4294967296, b, c)

/-- Process one 64-byte chunk, updating the running MD5 state. -/
def md5_chunk (st : Nat × Nat × Nat × Nat) (chunk : List Nat) :
    Nat × Nat × Nat × Nat :=
  let M := (List.range 16).map (fun j => fromLEWord ((chunk.drop (4 * j)).take 4))
  let r := (List.range 64).foldl (md5_round M) st
  ((st.1 + r.1) % 4294967296,
   (st.2.1 + r.2.1) % 4294967296,
   (st.2.2.1 + r.2.2.1) % 4294967296,
   (st.2.2.2 + r.2.2.2) % 4294967296)

/-- MD5 message padding: a 0x80 byte, zeros up to 56 mod 64, then the
bit length as a 64-bit little-endian word. -/
def md5_pad (msg : List Nat) : List Nat :=
  msg ++ [0x80] ++ List.replicate ((119 - msg.length % 64) % 64) 0
      ++ toLEBytes 8 (msg.length * 8 % 18446744073709551616)

/-- MD5 digest of a byte string: 16 bytes, the little-endian serialization
of the final state words. -/
def md5 (msg : List Nat) : List Nat :=
  let st := (toBlocks 64 (md5_pad msg)).foldl md5_chunk
    (0x67452301, 0xefcdab89, 0x98badcfe, 0x10325476)
  toLEBytes 4 st.1 ++ toLEBytes 4 st.2.1 ++ toLEBytes 4 st.2.2.1 ++ toLEBytes 4 st.2.2.2

/-- Byte list of an ASCII string, as MD5_Update(ctx, in, strlen(in)) reads
the passphrase. -/
def string_bytes (s : String) : List Nat :=
  s.data.map Char.toNat

/-- Tail of the tiling loop of fill_with_string_md5sum: starting 16 bytes
into the output buffer, copy min(16, remaining) bytes of the digest until
the buffer is full. -/
def md5_fill_loop (digest : List Nat) (remaining : Nat) : List Nat :=
  if remaining = 0 then []
  else digest.take (min 16 remaining) ++ md5_fill_loop digest (remaining - min 16 remaining)
termination_by remaining
decreasing_by
  rename_i h
  have h1 : 0 < min 16 remaining := by
    exact Nat.lt_min.mpr ⟨by omega, Nat.pos_of_ne_zero h⟩
  omega

/-- Key material deriver, from fill_with_string_md5sum in library.c: the
MD5 digest of the passphrase fills the first 16 bytes (truncated when the
buffer is shorter), then the digest is tiled over the rest. -/
def fill_with_string_md5sum (inp : String) (outlen : Nat) : List Nat :=
  let digest := md5 (string_bytes inp)
  digest.take (min outlen 16) ++ md5_fill_loop digest (outlen - min outlen 16)

/-! Helper lemmas about padding, block splitting and XOR. -/

theorem crypto_data_padding_of_aligned (data : List Nat) (bs : Nat)
    (h : data.length % bs = 0) : CRYPTO_DATA_PADDING data bs = data := by
  simp [CRYPTO_DATA_PADDING, h]

theorem crypto_data_padding_eq_append (data : List Nat) (bs : Nat) :
    CRYPTO_DATA_PADDING data bs =
      data ++ List.replicate
        (if data.length % bs = 0 then 0 else bs - data.length % bs) 0 := by
  by_cases h : data.length % bs = 0 <;> simp [CRYPTO_DATA_PADDING, h]

theorem crypto_data_padding_length (data : List Nat) (bs : Nat) :
    (CRYPTO_DATA_PADDING data bs).length =
      data.length + (if data.length % bs = 0 then 0 else bs - data.length % bs) := by
  rw [crypto_data_padding_eq_append]; simp

theorem crypto_data_padding_mod (data : List Nat) (bs : Nat) (hbs : 0 < bs) :
    (CRYPTO_DATA_PADDING data bs).length % bs = 0 := by
  rw [crypto_data_padding_length]
  by_cases h : data.length % bs = 0
  · simpa [h] using h
  · simp only [h, if_neg, ite_false]
    have hr : data.length % bs < bs := Nat.mod_lt _ hbs
    set r := data.length % bs with hrdef
    rw [Nat.add_mod, ← hrdef, Nat.mod_eq_of_lt (show bs - r < bs by omega)]
    rw [show r + (bs - r) = bs by omega, Nat.mod_self]

theorem flatten_length_uniform (bs : Nat) (L : List (List Nat))
    (h : ∀ b ∈ L, b.length = bs) : L.flatten.length = L.length * bs := by
  induction L with
  | nil => simp
  | cons x xs ih =>
    have hx : x.length = bs := h x (by simp)
    have := ih (fun b hb => h b (by simp [hb]))
    simp [hx, this, Nat.succ_mul, Nat.add_comm]

theorem toBlocks_flatten (bs : Nat) (hbs : 0 < bs) (l : List Nat) :
    (toBlocks bs l).flatten = l := by
  by_cases h1 : l = []
  · simp [toBlocks, h1]
  · rw [toBlocks, dif_neg h1, dif_neg (Nat.pos_iff_ne_zero.mp hbs)]
    rw [List.flatten_cons, toBlocks_flatten bs hbs (l.drop bs), List.take_append_drop]
termination_by l.length
decreasing_by
  simp only [List.length_drop]
  exact Nat.sub_lt (List.length_pos.mpr h1) hbs

theorem toBlocks_length_mem (bs : Nat) (hbs : 0 < bs) (l : List Nat)
    (hal : l.length % bs = 0) : ∀ b ∈ toBlocks bs l, b.length = bs := by
  intro b hb
  by_cases h1 : l = []
  · simp [toBlocks, h1] at hb
  · have hge : bs ≤ l.length := by
      by_contra hlt
      have : l.length % bs = l.length := Nat.mod_eq_of_lt (by omega)
      have : l.length = 0 := by omega
      exact h1 (List.length_eq_zero.mp this)
    rw [toBlocks, dif_neg h1, dif_neg (Nat.pos_iff_ne_zero.mp hbs)] at hb
    rcases List.mem_cons.mp hb with hhead | htail
    · rw [hhead]; simp [List.length_take]; omega
    · have hsub : (l.drop bs).length % bs = 0 := by
        rw [List.length_drop]
        have hdvd : bs ∣ l.length := Nat.dvd_of_mod_eq_zero hal
        have : bs ∣ l.length - bs := Nat.dvd_sub' hdvd (Nat.dvd_refl bs)
        exact Nat.mod_eq_zero_of_dvd this
      exact toBlocks_length_mem bs hbs (l.drop bs) hsub b htail
termination_by l.length
decreasing_by
  simp only [List.length_drop]
  exact Nat.sub_lt (List.length_pos.mpr h1) hbs

theorem toBlocks_of_flatten (bs : Nat) (hbs : 0 < bs) (L : List (List Nat))
    (h : ∀ b ∈ L, b.length = bs) : toBlocks bs L.flatten = L := by
  induction L with
  | nil => simp [toBlocks]
  | cons x xs ih =>
    have hx : x.length = bs := h x (by simp)
    rw [List.flatten_cons, toBlocks]
    have hne : ¬ (x ++ xs.flatten = []) := by
      intro hc
      have hx0 : x = [] := (List.append_eq_nil.mp hc).1
      rw [hx0] at hx
      simp at hx
      omega
    rw [dif_neg hne, dif_neg (Nat.pos_iff_ne_zero.mp hbs)]
    rw [List.take_left' hx, List.drop_left' hx]
    rw [ih (fun b hb => h b (by simp [hb]))]

theorem xorBytes_length (a b : List Nat) :
    (xorBytes a b).length = min a.length b.length := by
  simp [xorBytes]

theorem xorBytes_xorBytes (a b : List Nat) (h : a.length ≤ b.length) :
    xorBytes (xorBytes a b) b = a := by
  induction a generalizing b with
  | nil => simp [xorBytes]
  | cons x xs ih =>
    cases b with
    | nil => simp at h
    | cons y ys =>
      simp only [xorBytes, List.zipWith_cons_cons]
      rw [Nat.xor_cancel_right]
      have := ih ys (by simpa using h)
      simp only [xorBytes] at this
      rw [this]

theorem cbc_enc_blocks_count (E : List Nat → List Nat) (ps : List (List Nat)) :
    ∀ prev, (cbc_enc_blocks E prev ps).length = ps.length := by
  induction ps with
  | nil => intro prev; rfl
  | cons p ps ih => intro prev; simp [cbc_enc_blocks, ih]

theorem cbc_enc_blocks_length_mem (E : List Nat → List Nat) (bs : Nat)
    (hE : ∀ b, (E b).length = b.length) (ps : List (List Nat)) :
    ∀ prev, (∀ p ∈ ps, p.length = bs) → prev.length = bs →
      ∀ c ∈ cbc_enc_blocks E prev ps, c.length = bs := by
  induction ps with
  | nil => intro prev _ _ c hc; simp [cbc_enc_blocks] at hc
  | cons p ps ih =>
    intro prev hps hprev c hc
    have hp : p.length = bs := hps p (by simp)
    have hc0 : (E (xorBytes p prev)).length = bs := by
      rw [hE, xorBytes_length, hp, hprev]; simp
    simp only [cbc_enc_blocks, List.mem_cons] at hc
    rcases hc with rfl | htail
    · exact hc0
    · exact ih (E (xorBytes p prev)) (fun q hq => hps q (by simp [hq])) hc0 c htail

theorem cbc_dec_enc_blocks (E D : List Nat → List Nat) (bs : Nat)
    (hED : ∀ b, D (E b) = b) (hE : ∀ b, (E b).length = b.length)
    (ps : List (List Nat)) :
    ∀ prev, (∀ p ∈ ps, p.length = bs) → prev.length = bs →
      cbc_dec_blocks D prev (cbc_enc_blocks E prev ps) = ps := by
  induction ps with
  | nil => intro prev _ _; rfl
  | cons p ps ih =>
    intro prev hps hprev
    have hp : p.length = bs := hps p (by simp)
    simp only [cbc_enc_blocks, cbc_dec_blocks]
    rw [hED]
    rw [xorBytes_xorBytes p prev (by omega)]
    rw [ih (E (xorBytes p prev))
        (fun q hq => hps q (by simp [hq]))
        (by rw [hE, xorBytes_length, hp, hprev]; simp)]

theorem stream_xor_length (ks : Nat → Nat) (l : List Nat) :
    ∀ i, (stream_xor ks i l).length = l.length := by
  induction l with
  | nil => intro i; rfl
  | cons b rest ih => intro i; simp [stream_xor, ih]

theorem stream_xor_involutive (ks : Nat → Nat) (l : List Nat) :
    ∀ i, stream_xor ks i (stream_xor ks i l) = l := by
  induction l with
  | nil => intro i; rfl
  | cons b rest ih =>
    intro i
    simp only [stream_xor]
    rw [Nat.xor_cancel_right, ih]

theorem initdata_length : crypto_ivec_initdata.length = 32 := by decide

/-- Round trip of the datagram engine for any cipher whose update maps are
CBC mode over an invertible, length-preserving block permutation. -/
theorem datagram_cbc_roundtrip (c : EVPCipher) (E D : List Nat → List Nat)
    (key P : List Nat) (bs : Nat)
    (hbs : effective_iv_len c = bs) (h0 : 0 < bs) (h32 : bs ≤ 32)
    (henc : ∀ iv d, c.encryptUpdate key iv d = cbc_encrypt E iv d)
    (hdec : ∀ iv d, c.decryptUpdate key iv d = cbc_decrypt D iv d)
    (hED : ∀ b, D (E b) = b) (hE : ∀ b, (E b).length = b.length) :
    datagram_decrypt key c (datagram_encrypt key c P).1 =
      (CRYPTO_DATA_PADDING P bs, (CRYPTO_DATA_PADDING P bs).length) := by
  have hiv : (crypto_ivec_initdata.take bs).length = bs := by
    rw [List.length_take, initdata_length]; omega
  have hpadmod : (CRYPTO_DATA_PADDING P bs).length % bs = 0 :=
    crypto_data_padding_mod P bs h0
  have hblocks : ∀ b ∈ toBlocks bs (CRYPTO_DATA_PADDING P bs), b.length = bs :=
    toBlocks_length_mem bs h0 _ hpadmod
  have hencblocks : ∀ b ∈ cbc_enc_blocks E (crypto_ivec_initdata.take bs)
      (toBlocks bs (CRYPTO_DATA_PADDING P bs)), b.length = bs :=
    cbc_enc_blocks_length_mem E bs hE _ _ hblocks hiv
  have hctlen : (cbc_encrypt E (crypto_ivec_initdata.take bs)
      (CRYPTO_DATA_PADDING P bs)).length % bs = 0 := by
    rw [cbc_encrypt, hiv, flatten_length_uniform bs _ hencblocks]
    exact Nat.mul_mod_left _ _
  simp only [datagram_encrypt, datagram_decrypt, hbs, henc, hdec]
  rw [crypto_data_padding_of_aligned _ _ hctlen]
  rw [cbc_decrypt, hiv, cbc_encrypt, hiv]
  rw [toBlocks_of_flatten bs h0 _ hencblocks]
  rw [cbc_dec_enc_blocks E D bs hED hE _ _ hblocks hiv]
  rw [toBlocks_flatten bs h0]

/-- Round trip of the datagram engine for a stream cipher with no IV whose
update maps XOR a fixed keystream. -/
theorem datagram_stream_roundtrip (c : EVPCipher) (ks : Nat → Nat)
    (key P : List Nat) (h0 : c.iv_length = 0)
    (henc : ∀ iv d, c.encryptUpdate key iv d = stream_xor ks 0 d)
    (hdec : ∀ iv d, c.decryptUpdate key iv d = stream_xor ks 0 d) :
    datagram_decrypt key c (datagram_encrypt key c P).1 =
      (CRYPTO_DATA_PADDING P 16, (CRYPTO_DATA_PADDING P 16).length) := by
  have hbs : effective_iv_len c = 16 := by simp [effective_iv_len, h0]
  have hctmod : (stream_xor ks 0 (CRYPTO_DATA_PADDING P 16)).length % 16 = 0 := by
    rw [stream_xor_length]
    exact crypto_data_padding_mod P 16 (by omega)
  simp only [datagram_encrypt, datagram_decrypt, hbs, henc, hdec]
  rw [crypto_data_padding_of_aligned _ _ hctmod]
  rw [stream_xor_involutive]

theorem md5_length (msg : List Nat) : (md5 msg).length = 16 := by
  simp [md5, toLEBytes]

theorem md5_fill_loop_length (digest : List Nat) (hdg : digest.length = 16)
    (r : Nat) : (md5_fill_loop digest r).length = r := by
  by_cases h : r = 0
  · simp [md5_fill_loop, h]
  · rw [md5_fill_loop, if_neg h]
    rw [List.length_append, List.length_take, hdg,
      md5_fill_loop_length digest hdg (r - min 16 r)]
    omega
termination_by r
decreasing_by
  have h1 : 0 < min 16 r := Nat.lt_min.mpr ⟨by omega, Nat.pos_of_ne_zero h⟩
  omega

theorem md5_fill_loop_getD (digest : List Nat) (hdg : digest.length = 16)
    (r j : Nat) (hj : j < r) :
    (md5_fill_loop digest r).getD j 0 = digest.getD (j % 16) 0 := by
  have hr : r ≠ 0 := by omega
  rw [md5_fill_loop, if_neg hr]
  by_cases hjlt : j < min 16 r
  · rw [List.getD_append _ _ _ _ (by rw [List.length_take, hdg]; omega)]
    have hj16 : j < 16 := by omega
    rw [Nat.mod_eq_of_lt hj16]
    simp only [List.getD_eq_getElem?_getD]
    rw [List.getElem?_take_of_lt (by omega)]
  · have h16r : 16 < r := by omega
    have hmin : min 16 r = 16 := by omega
    rw [List.getD_append_right _ _ _ _ (by rw [List.length_take, hdg]; omega)]
    rw [List.length_take, hdg, hmin]
    have : min 16 16 = 16 := by omega
    rw [this]
    rw [md5_fill_loop_getD digest hdg (r - 16) (j - 16) (by omega)]
    have hsplit : j % 16 = (j - 16) % 16 := by
      conv_lhs => rw [show j = 16 + (j - 16) by omega]
      rw [Nat.add_mod_left]
    rw [hsplit]
termination_by r
decreasing_by omega

theorem fill_with_string_md5sum_length (p : String) (n : Nat) :
    (fill_with_string_md5sum p n).length = n := by
  rw [fill_with_string_md5sum]
  rw [List.length_append, List.length_take,
    md5_fill_loop_length _ (md5_length _), md5_length]
  omega

theorem fill_with_string_md5sum_getD (p : String) (n i : Nat) (hi : i < n) :
    (fill_with_string_md5sum p n).getD i 0 =
      (md5 (string_bytes p)).getD (i % 16) 0 := by
  rw [fill_with_string_md5sum]
  by_cases hilt : i < min n 16
  · rw [List.getD_append _ _ _ _ (by rw [List.length_take, md5_length]; omega)]
    have hi16 : i < 16 := by omega
    rw [Nat.mod_eq_of_lt hi16]
    simp only [List.getD_eq_getElem?_getD]
    rw [List.getElem?_take_of_lt (by omega)]
  · have h16n : 16 < n := by omega
    have hmin : min n 16 = 16 := by omega
    rw [List.getD_append_right _ _ _ _
      (by rw [List.length_take, md5_length]; omega)]
    rw [List.length_take, md5_length, hmin]
    have h1616 : min 16 16 = 16 := by omega
    rw [h1616]
    rw [md5_fill_loop_getD _ (md5_length _) (n - 16) (i - 16) (by omega)]
    have hsplit : i % 16 = (i - 16) % 16 := by
      conv_lhs => rw [show i = 16 + (i - 16) by omega]
      rw [Nat.add_mod_left]
    rw [hsplit]

theorem fill_with_string_md5sum_short (p : String) (n : Nat) (hn : n ≤ 16) :
    fill_with_string_md5sum p n = (md5 (string_bytes p)).take n := by
  rw [fill_with_string_md5sum]
  have hmin : min n 16 = n := by omega
  rw [hmin]
  simp [md5_fill_loop]

theorem cbc_encrypt_length (E : List Nat → List Nat)
    (hE : ∀ b, (E b).length = b.length) (iv data : List Nat)
    (hiv : 0 < iv.length) (hal : data.length % iv.length = 0) :
    (cbc_encrypt E iv data).length = data.length := by
  rw [cbc_encrypt]
  have hblocks := toBlocks_length_mem iv.length hiv data hal
  have hencb := cbc_enc_blocks_length_mem E iv.length hE _ iv hblocks rfl
  rw [flatten_length_uniform _ _ hencb, cbc_enc_blocks_count]
  have hback := flatten_length_uniform iv.length _ hblocks
  rw [toBlocks_flatten iv.length hiv data] at hback
  omega

theorem padding_roundup (P : List Nat) (bs : Nat) (hbs : 0 < bs) :
    (CRYPTO_DATA_PADDING P bs).length % bs = 0 ∧
    P.length ≤ (CRYPTO_DATA_PADDING P bs).length ∧
    (CRYPTO_DATA_PADDING P bs).length < P.length + bs := by
  refine ⟨crypto_data_padding_mod P bs hbs, ?_, ?_⟩ <;>
  · rw [crypto_data_padding_length]
    have hr : P.length % bs < bs := Nat.mod_lt _ hbs
    by_cases h : P.length % bs = 0 <;> simp [h] <;> omega

/-! Claim theorems. -/

/-- C1: for every plaintext P and every (cipher, passphrase) pair accepted
by the registry and the deriver, datagram_encrypt followed by
datagram_decrypt with the same key and cipher yields exactly P zero-padded
to the next multiple of the effective IV length, and the reported length is
that padded length. Parametric in the external EVP block permutations,
assumed invertible and length preserving. -/
theorem C1_encrypt_decrypt_roundtrip
    (blockE blockD : CipherId → List Nat → List Nat → List Nat)
    (rc4ks : List Nat → Nat → Nat)
    (name : String) (cid : CipherId) (pass : String) (P : List Nat)
    (hname : get_crypto_type name = some cid)
    (hInv : ∀ c k b, blockD c k (blockE c k b) = b)
    (hLen : ∀ c k b, (blockE c k b).length = b.length) :
    datagram_decrypt (fill_with_string_md5sum pass (evp_key_length cid))
        (evp_cipher_model blockE blockD rc4ks cid)
        (datagram_encrypt (fill_with_string_md5sum pass (evp_key_length cid))
          (evp_cipher_model blockE blockD rc4ks cid) P).1 =
      (CRYPTO_DATA_PADDING P
          (effective_iv_len (evp_cipher_model blockE blockD rc4ks cid)),
        (CRYPTO_DATA_PADDING P
          (effective_iv_len (evp_cipher_model blockE blockD rc4ks cid))).length) := by
  cases cid with
  | rc4 =>
    exact datagram_stream_roundtrip _
      (rc4ks (fill_with_string_md5sum pass (evp_key_length CipherId.rc4))) _ P
      rfl (fun _ _ => rfl) (fun _ _ => rfl)
  | aes128 =>
    exact datagram_cbc_roundtrip _
      (blockE CipherId.aes128 (fill_with_string_md5sum pass (evp_key_length CipherId.aes128)))
      (blockD CipherId.aes128 (fill_with_string_md5sum pass (evp_key_length CipherId.aes128)))
      _ P 16 rfl (by omega) (by omega) (fun _ _ => rfl) (fun _ _ => rfl)
      (hInv _ _) (hLen _ _)
  | aes256 =>
    exact datagram_cbc_roundtrip _
      (blockE CipherId.aes256 (fill_with_string_md5sum pass (evp_key_length CipherId.aes256)))
      (blockD CipherId.aes256 (fill_with_string_md5sum pass (evp_key_length CipherId.aes256)))
      _ P 16 rfl (by omega) (by omega) (fun _ _ => rfl) (fun _ _ => rfl)
      (hInv _ _) (hLen _ _)
  | des =>
    exact datagram_cbc_roundtrip _
      (blockE CipherId.des (fill_with_string_md5sum pass (evp_key_length CipherId.des)))
      (blockD CipherId.des (fill_with_string_md5sum pass (evp_key_length CipherId.des)))
      _ P 8 rfl (by omega) (by omega) (fun _ _ => rfl) (fun _ _ => rfl)
      (hInv _ _) (hLen _ _)
  | desx =>
    exact datagram_cbc_roundtrip _
      (blockE CipherId.desx (fill_with_string_md5sum pass (evp_key_length CipherId.desx)))
      (blockD CipherId.desx (fill_with_string_md5sum pass (evp_key_length CipherId.desx)))
      _ P 8 rfl (by omega) (by omega) (fun _ _ => rfl) (fun _ _ => rfl)
      (hInv _ _) (hLen _ _)

/-- Witness for C1: concrete round trip for aes-128 with the identity block
permutation, passphrase pw, plaintext [1, 2, 3]. -/
theorem C1_roundtrip_witness :
    datagram_decrypt (fill_with_string_md5sum "pw" (evp_key_length CipherId.aes128))
        (evp_cipher_model (fun _ _ b => b) (fun _ _ b => b) (fun _ _ => 0) CipherId.aes128)
        (datagram_encrypt (fill_with_string_md5sum "pw" (evp_key_length CipherId.aes128))
          (evp_cipher_model (fun _ _ b => b) (fun _ _ b => b) (fun _ _ => 0) CipherId.aes128)
          [1, 2, 3]).1 =
      (CRYPTO_DATA_PADDING [1, 2, 3]
          (effective_iv_len (evp_cipher_model (fun _ _ b => b) (fun _ _ b => b)
            (fun _ _ => 0) CipherId.aes128)),
        (CRYPTO_DATA_PADDING [1, 2, 3]
          (effective_iv_len (evp_cipher_model (fun _ _ b => b) (fun _ _ b => b)
            (fun _ _ => 0) CipherId.aes128))).length) :=
  C1_encrypt_decrypt_roundtrip _ _ _ "aes-128" CipherId.aes128 "pw" [1, 2, 3]
    (by decide) (fun _ _ _ => rfl) (fun _ _ _ => rfl)

/-- C2: the derived key is the MD5 digest of the passphrase tiled over the
output buffer: byte i equals digest byte i mod 16, the whole key is the
digest truncated when the requested length is at most 16; in particular for
the passphrase secret, at length 32 bytes 16 to 31 repeat bytes 0 to 15 and
at length 10 the key is the first 10 digest bytes. -/
theorem C2_key_derivation (pass : String) (n : Nat) :
    (fill_with_string_md5sum pass n).length = n ∧
    (∀ i, i < n → (fill_with_string_md5sum pass n).getD i 0 =
        (md5 (string_bytes pass)).getD (i % 16) 0) ∧
    (n ≤ 16 → fill_with_string_md5sum pass n = (md5 (string_bytes pass)).take n) ∧
    (∀ i, i < 16 → (fill_with_string_md5sum "secret" 32).getD (16 + i) 0 =
        (fill_with_string_md5sum "secret" 32).getD i 0) ∧
    fill_with_string_md5sum "secret" 10 = (md5 (string_bytes "secret")).take 10 := by
  refine ⟨fill_with_string_md5sum_length pass n,
    fun i hi => fill_with_string_md5sum_getD pass n i hi,
    fun hn => fill_with_string_md5sum_short pass n hn,
    fun i hi => ?_,
    fill_with_string_md5sum_short "secret" 10 (by omega)⟩
  rw [fill_with_string_md5sum_getD "secret" 32 (16 + i) (by omega),
    fill_with_string_md5sum_getD "secret" 32 i (by omega),
    Nat.add_mod_left]

/-- Witness for C2: byte 3 of the 32-byte key derived from secret equals
digest byte 3 mod 16. -/
theorem C2_key_derivation_witness :
    3 < 32 ∧ (fill_with_string_md5sum "secret" 32).getD 3 0 =
      (md5 (string_bytes "secret")).getD (3 % 16) 0 :=
  ⟨by omega, (C2_key_derivation "secret" 32).2.1 3 (by omega)⟩

/-- C3 counterexample: a buffer one byte short of a block boundary (length
15, block size 16) gains exactly one zero byte, not block size minus one as
the claim states: the padded length is 16, not 15 + 15. -/
theorem C3_padding_counterexample :
    ¬ ((CRYPTO_DATA_PADDING (List.replicate 15 1) 16).length = 15 + (16 - 1)) := by
  decide

/-- C3 amended: if the length is already a multiple of bs the buffer is
unchanged; otherwise exactly bs - (len mod bs) zero bytes are appended and
the length grows by that amount; in particular a buffer one byte short of a
boundary (len mod bs = bs - 1) gains exactly one zero byte. -/
theorem C3_padding_behavior (data : List Nat) (bs : Nat) (hbs : 0 < bs) :
    (data.length % bs = 0 → CRYPTO_DATA_PADDING data bs = data) ∧
    (data.length % bs ≠ 0 →
        CRYPTO_DATA_PADDING data bs =
          data ++ List.replicate (bs - data.length % bs) 0 ∧
        (CRYPTO_DATA_PADDING data bs).length =
          data.length + (bs - data.length % bs)) ∧
    (1 < bs → data.length % bs = bs - 1 →
        (CRYPTO_DATA_PADDING data bs).length = data.length + 1) := by
  refine ⟨fun h => crypto_data_padding_of_aligned data bs h, fun h => ⟨?_, ?_⟩, ?_⟩
  · rw [crypto_data_padding_eq_append, if_neg h]
  · rw [crypto_data_padding_length, if_neg h]
  · intro hbs1 hlast
    rw [crypto_data_padding_length, if_neg (by omega), hlast]
    omega

/-- Witness for C3: a one-byte buffer with block size 2 is one byte short
of a boundary and gains exactly one zero byte. -/
theorem C3_padding_witness :
    CRYPTO_DATA_PADDING [1] 2 = [1] ++ List.replicate 1 0 ∧
    (CRYPTO_DATA_PADDING [1] 2).length = 1 + 1 := by
  have h := C3_padding_behavior [1] 2 (by omega)
  exact ⟨(h.2.1 (by decide)).1, h.2.2 (by omega) (by decide)⟩

theorem find?_pred_eq_true {α : Type} (p : α → Bool) (l : List α) (a : α)
    (h : List.find? p l = some a) : p a = true :=
  List.find?_some h

/-- C4: registry lookup matches names case-insensitively against the
static five-entry table, each name maps to exactly one descriptor, and
every unrecognized name, blowfish among them, yields none. -/
theorem C4_registry_lookup :
    get_crypto_type "blowfish" = none ∧
    (∀ p ∈ cipher_pairs, ∀ q ∈ cipher_pairs, strcaseeq p.1 q.1 = true → p = q) ∧
    (∀ name : String, get_crypto_type name = none ↔
        ∀ p ∈ cipher_pairs, strcaseeq p.1 name = false) ∧
    (∀ (name : String) (cid : CipherId), get_crypto_type name = some cid ↔
        ∃ p ∈ cipher_pairs, strcaseeq p.1 name = true ∧ p.2 = cid) := by
  have huniq : ∀ p ∈ cipher_pairs, ∀ q ∈ cipher_pairs,
      lower_chars p.1 = lower_chars q.1 → p = q := by decide
  refine ⟨by decide, ?_, ?_, ?_⟩
  · intro p hp q hq hmatch
    exact huniq p hp q hq (by simpa [strcaseeq] using hmatch)
  · intro name
    simp only [get_crypto_type, Option.map_eq_none', List.find?_eq_none,
      Bool.not_eq_true]
  · intro name cid
    constructor
    · intro h
      rw [get_crypto_type] at h
      cases hfind : List.find? (fun p => strcaseeq p.1 name) cipher_pairs with
      | none => rw [hfind] at h; simp at h
      | some q =>
        rw [hfind] at h
        simp only [Option.map_some'] at h
        have hqpred := find?_pred_eq_true (fun p => strcaseeq p.1 name)
          cipher_pairs q hfind
        exact ⟨q, List.mem_of_find?_eq_some hfind, by simpa using hqpred,
          by simpa using h⟩
    · rintro ⟨p, hp, hmatch, hcid⟩
      have hsome : (List.find? (fun p => strcaseeq p.1 name) cipher_pairs).isSome :=
        List.find?_isSome.mpr ⟨p, hp, hmatch⟩
      obtain ⟨q, hq⟩ := Option.isSome_iff_exists.mp hsome
      have hqmem := List.mem_of_find?_eq_some hq
      have hqmatch := find?_pred_eq_true (fun p => strcaseeq p.1 name)
        cipher_pairs q hq
      have h1 : lower_chars q.1 = lower_chars name := by
        simpa [strcaseeq] using hqmatch
      have h2 : lower_chars p.1 = lower_chars name := by
        simpa [strcaseeq] using hmatch
      have hqp : q = p := huniq q hqmem p hp (h1.trans h2.symm)
      rw [get_crypto_type, hq]
      simp [hqp, hcid]

/-- Witness for C4: the lookup is case-insensitive on a concrete name. -/
theorem C4_registry_lookup_witness :
    get_crypto_type "AES-128" = some CipherId.aes128 :=
  (C4_registry_lookup.2.2.2 "AES-128" CipherId.aes128).mpr
    ⟨("aes-128", CipherId.aes128), by decide, by decide, rfl⟩

/-- C5: both engine directions use the native IV length, defaulting to 16
when the cipher reports 0, and pass the cipher exactly the first iv_length
bytes of the fixed constant, which is the byte pattern ab cd ef 12 34 56 78
90 repeated four times. -/
theorem C5_fixed_iv (c : EVPCipher) (key P : List Nat) :
    crypto_ivec_initdata =
      [0xab, 0xcd, 0xef, 0x12, 0x34, 0x56, 0x78, 0x90] ++
      [0xab, 0xcd, 0xef, 0x12, 0x34, 0x56, 0x78, 0x90] ++
      [0xab, 0xcd, 0xef, 0x12, 0x34, 0x56, 0x78, 0x90] ++
      [0xab, 0xcd, 0xef, 0x12, 0x34, 0x56, 0x78, 0x90] ∧
    effective_iv_len c = (if c.iv_length = 0 then 16 else c.iv_length) ∧
    datagram_encrypt key c P =
      (c.encryptUpdate key
          (crypto_ivec_initdata.take (if c.iv_length = 0 then 16 else c.iv_length))
          (CRYPTO_DATA_PADDING P (if c.iv_length = 0 then 16 else c.iv_length)),
        (c.encryptUpdate key
          (crypto_ivec_initdata.take (if c.iv_length = 0 then 16 else c.iv_length))
          (CRYPTO_DATA_PADDING P (if c.iv_length = 0 then 16 else c.iv_length))).length) ∧
    datagram_decrypt key c P =
      (c.decryptUpdate key
          (crypto_ivec_initdata.take (if c.iv_length = 0 then 16 else c.iv_length))
          (CRYPTO_DATA_PADDING P (if c.iv_length = 0 then 16 else c.iv_length)),
        (c.decryptUpdate key
          (crypto_ivec_initdata.take (if c.iv_length = 0 then 16 else c.iv_length))
          (CRYPTO_DATA_PADDING P (if c.iv_length = 0 then 16 else c.iv_length))).length) :=
  ⟨by decide, rfl, rfl, rfl⟩

/-- C6: the length reported by datagram_encrypt is exactly the padded input
length, the input length rounded up to the next multiple of the effective
block size. Parametric in the external block permutations, assumed length
preserving. -/
theorem C6_encrypt_output_length
    (blockE blockD : CipherId → List Nat → List Nat → List Nat)
    (rc4ks : List Nat → Nat → Nat) (cid : CipherId) (key P : List Nat)
    (hLen : ∀ c k b, (blockE c k b).length = b.length) :
    (datagram_encrypt key (evp_cipher_model blockE blockD rc4ks cid) P).2 =
      (CRYPTO_DATA_PADDING P
        (effective_iv_len (evp_cipher_model blockE blockD rc4ks cid))).length ∧
    (CRYPTO_DATA_PADDING P
        (effective_iv_len (evp_cipher_model blockE blockD rc4ks cid))).length %
      effective_iv_len (evp_cipher_model blockE blockD rc4ks cid) = 0 ∧
    P.length ≤ (CRYPTO_DATA_PADDING P
        (effective_iv_len (evp_cipher_model blockE blockD rc4ks cid))).length ∧
    (CRYPTO_DATA_PADDING P
        (effective_iv_len (evp_cipher_model blockE blockD rc4ks cid))).length <
      P.length + effective_iv_len (evp_cipher_model blockE blockD rc4ks cid) := by
  have hiv16 : (crypto_ivec_initdata.take 16).length = 16 := by decide
  have hiv8 : (crypto_ivec_initdata.take 8).length = 8 := by decide
  cases cid with
  | rc4 =>
    have hp := padding_roundup P 16 (by omega)
    exact ⟨stream_xor_length _ _ 0, hp.1, hp.2.1, hp.2.2⟩
  | aes128 =>
    have hp := padding_roundup P 16 (by omega)
    exact ⟨cbc_encrypt_length (blockE CipherId.aes128 key) (hLen _ _)
        (crypto_ivec_initdata.take 16) (CRYPTO_DATA_PADDING P 16)
        (by rw [hiv16]; omega)
        (by rw [hiv16]; exact crypto_data_padding_mod P 16 (by omega)),
      hp.1, hp.2.1, hp.2.2⟩
  | aes256 =>
    have hp := padding_roundup P 16 (by omega)
    exact ⟨cbc_encrypt_length (blockE CipherId.aes256 key) (hLen _ _)
        (crypto_ivec_initdata.take 16) (CRYPTO_DATA_PADDING P 16)
        (by rw [hiv16]; omega)
        (by rw [hiv16]; exact crypto_data_padding_mod P 16 (by omega)),
      hp.1, hp.2.1, hp.2.2⟩
  | des =>
    have hp := padding_roundup P 8 (by omega)
    exact ⟨cbc_encrypt_length (blockE CipherId.des key) (hLen _ _)
        (crypto_ivec_initdata.take 8) (CRYPTO_DATA_PADDING P 8)
        (by rw [hiv8]; omega)
        (by rw [hiv8]; exact crypto_data_padding_mod P 8 (by omega)),
      hp.1, hp.2.1, hp.2.2⟩
  | desx =>
    have hp := padding_roundup P 8 (by omega)
    exact ⟨cbc_encrypt_length (blockE CipherId.desx key) (hLen _ _)
        (crypto_ivec_initdata.take 8) (CRYPTO_DATA_PADDING P 8)
        (by rw [hiv8]; omega)
        (by rw [hiv8]; exact crypto_data_padding_mod P 8 (by omega)),
      hp.1, hp.2.1, hp.2.2⟩

/-- Witness for C6: concrete reported length for aes-128 with the identity
block permutation on a three-byte plaintext. -/
theorem C6_encrypt_output_length_witness :
    (datagram_encrypt [] (evp_cipher_model (fun _ _ b => b) (fun _ _ b => b)
        (fun _ _ => 0) CipherId.aes128) [1, 2, 3]).2 =
      (CRYPTO_DATA_PADDING [1, 2, 3]
        (effective_iv_len (evp_cipher_model (fun _ _ b => b) (fun _ _ b => b)
          (fun _ _ => 0) CipherId.aes128))).length ∧
    (CRYPTO_DATA_PADDING [1, 2, 3]
        (effective_iv_len (evp_cipher_model (fun _ _ b => b) (fun _ _ b => b)
          (fun _ _ => 0) CipherId.aes128))).length %
      effective_iv_len (evp_cipher_model (fun _ _ b => b) (fun _ _ b => b)
        (fun _ _ => 0) CipherId.aes128) = 0 ∧
    (3 : Nat) ≤ (CRYPTO_DATA_PADDING [1, 2, 3]
        (effective_iv_len (evp_cipher_model (fun _ _ b => b) (fun _ _ b => b)
          (fun _ _ => 0) CipherId.aes128))).length ∧
    (CRYPTO_DATA_PADDING [1, 2, 3]
        (effective_iv_len (evp_cipher_model (fun _ _ b => b) (fun _ _ b => b)
          (fun _ _ => 0) CipherId.aes128))).length <
      3 + effective_iv_len (evp_cipher_model (fun _ _ b => b) (fun _ _ b => b)
        (fun _ _ => 0) CipherId.aes128) :=
  C6_encrypt_output_length (fun _ _ b => b) (fun _ _ b => b) (fun _ _ => 0)
    CipherId.aes128 [] [1, 2, 3] (fun _ _ _ => rfl)

/-- C7: key derivation and encryption are deterministic: identical inputs
yield identical outputs; in the pure embedding this is input congruence,
and the C source draws no randomness in either operation. -/
theorem C7_deterministic (p1 p2 : String) (n1 n2 : Nat)
    (c1 c2 : EVPCipher) (k1 k2 P1 P2 : List Nat)
    (hp : p1 = p2) (hn : n1 = n2) (hc : c1 = c2) (hk : k1 = k2) (hP : P1 = P2) :
    fill_with_string_md5sum p1 n1 = fill_with_string_md5sum p2 n2 ∧
    datagram_encrypt k1 c1 P1 = datagram_encrypt k2 c2 P2 := by
  subst hp; subst hn; subst hc; subst hk; subst hP
  exact ⟨rfl, rfl⟩

/-- Witness for C7 at concrete inputs. -/
theorem C7_deterministic_witness :
    fill_with_string_md5sum "secret" 16 = fill_with_string_md5sum "secret" 16 ∧
    datagram_encrypt [] (evp_cipher_model (fun _ _ b => b) (fun _ _ b => b)
        (fun _ _ => 0) CipherId.aes128) [1] =
      datagram_encrypt [] (evp_cipher_model (fun _ _ b => b) (fun _ _ b => b)
        (fun _ _ => 0) CipherId.aes128) [1] :=
  C7_deterministic "secret" "secret" 16 16 _ _ [] [] [1] [1] rfl rfl rfl rfl rfl

/-- C8 counterexample: with keys derived from the same passphrase, aes-128
and aes-256 report the same ciphertext length on the same plaintext (both
have 16-byte blocks), refuting the claimed different lengths; shown at the
identity block permutation, passphrase secret, plaintext [1, 2, 3], where
both report 16. -/
theorem C8_counterexample :
    (datagram_encrypt (fill_with_string_md5sum "secret" 16)
        (evp_cipher_model (fun _ _ b => b) (fun _ _ b => b) (fun _ _ => 0)
          CipherId.aes128) [1, 2, 3]).2 =
      (datagram_encrypt (fill_with_string_md5sum "secret" 32)
        (evp_cipher_model (fun _ _ b => b) (fun _ _ b => b) (fun _ _ => 0)
          CipherId.aes256) [1, 2, 3]).2 ∧
    (datagram_encrypt (fill_with_string_md5sum "secret" 16)
        (evp_cipher_model (fun _ _ b => b) (fun _ _ b => b) (fun _ _ => 0)
          CipherId.aes128) [1, 2, 3]).2 = 16 := by
  have hiv16 : (crypto_ivec_initdata.take 16).length = 16 := by decide
  have h128 : (datagram_encrypt (fill_with_string_md5sum "secret" 16)
      (evp_cipher_model (fun _ _ b => b) (fun _ _ b => b) (fun _ _ => 0)
        CipherId.aes128) [1, 2, 3]).2 =
      (CRYPTO_DATA_PADDING [1, 2, 3] 16).length :=
    cbc_encrypt_length (fun b => b) (fun _ => rfl)
      (crypto_ivec_initdata.take 16) (CRYPTO_DATA_PADDING [1, 2, 3] 16)
      (by rw [hiv16]; omega)
      (by rw [hiv16]; exact crypto_data_padding_mod [1, 2, 3] 16 (by omega))
  have h256 : (datagram_encrypt (fill_with_string_md5sum "secret" 32)
      (evp_cipher_model (fun _ _ b => b) (fun _ _ b => b) (fun _ _ => 0)
        CipherId.aes256) [1, 2, 3]).2 =
      (CRYPTO_DATA_PADDING [1, 2, 3] 16).length :=
    cbc_encrypt_length (fun b => b) (fun _ => rfl)
      (crypto_ivec_initdata.take 16) (CRYPTO_DATA_PADDING [1, 2, 3] 16)
      (by rw [hiv16]; omega)
      (by rw [hiv16]; exact crypto_data_padding_mod [1, 2, 3] 16 (by omega))
  refine ⟨h128.trans h256.symm, ?_⟩
  rw [h128]
  decide

/-- C8 amended: encrypting the same plaintext under aes-128 and aes-256
with keys derived from the same passphrase produces ciphertexts of equal
length, namely the plaintext length padded to the common 16-byte block
size, while the derived keys themselves differ (16 versus 32 bytes). -/
theorem C8_cross_cipher
    (blockE blockD : CipherId → List Nat → List Nat → List Nat)
    (rc4ks : List Nat → Nat → Nat) (pass : String) (P : List Nat)
    (hLen : ∀ c k b, (blockE c k b).length = b.length) :
    (datagram_encrypt (fill_with_string_md5sum pass 16)
        (evp_cipher_model blockE blockD rc4ks CipherId.aes128) P).2 =
      (datagram_encrypt (fill_with_string_md5sum pass 32)
        (evp_cipher_model blockE blockD rc4ks CipherId.aes256) P).2 ∧
    (datagram_encrypt (fill_with_string_md5sum pass 16)
        (evp_cipher_model blockE blockD rc4ks CipherId.aes128) P).2 =
      (CRYPTO_DATA_PADDING P 16).length ∧
    (CRYPTO_DATA_PADDING P 16).length % 16 = 0 ∧
    fill_with_string_md5sum pass 16 ≠ fill_with_string_md5sum pass 32 := by
  have hiv16 : (crypto_ivec_initdata.take 16).length = 16 := by decide
  have h128 : (datagram_encrypt (fill_with_string_md5sum pass 16)
      (evp_cipher_model blockE blockD rc4ks CipherId.aes128) P).2 =
      (CRYPTO_DATA_PADDING P 16).length :=
    cbc_encrypt_length (blockE CipherId.aes128 (fill_with_string_md5sum pass 16))
      (hLen _ _) (crypto_ivec_initdata.take 16) (CRYPTO_DATA_PADDING P 16)
      (by rw [hiv16]; omega)
      (by rw [hiv16]; exact crypto_data_padding_mod P 16 (by omega))
  have h256 : (datagram_encrypt (fill_with_string_md5sum pass 32)
      (evp_cipher_model blockE blockD rc4ks CipherId.aes256) P).2 =
      (CRYPTO_DATA_PADDING P 16).length :=
    cbc_encrypt_length (blockE CipherId.aes256 (fill_with_string_md5sum pass 32))
      (hLen _ _) (crypto_ivec_initdata.take 16) (CRYPTO_DATA_PADDING P 16)
      (by rw [hiv16]; omega)
      (by rw [hiv16]; exact crypto_data_padding_mod P 16 (by omega))
  refine ⟨h128.trans h256.symm, h128,
    crypto_data_padding_mod P 16 (by omega), ?_⟩
  intro h
  have hlen := congrArg List.length h
  rw [fill_with_string_md5sum_length, fill_with_string_md5sum_length] at hlen
  omega

/-- Witness for C8 at concrete inputs. -/
theorem C8_cross_cipher_witness :
    (datagram_encrypt (fill_with_string_md5sum "secret" 16)
        (evp_cipher_model (fun _ _ b => b) (fun _ _ b => b) (fun _ _ => 0)
          CipherId.aes128) [1, 2, 3]).2 =
      (datagram_encrypt (fill_with_string_md5sum "secret" 32)
        (evp_cipher_model (fun _ _ b => b) (fun _ _ b => b) (fun _ _ => 0)
          CipherId.aes256) [1, 2, 3]).2 ∧
    (datagram_encrypt (fill_with_string_md5sum "secret" 16)
        (evp_cipher_model (fun _ _ b => b) (fun _ _ b => b) (fun _ _ => 0)
          CipherId.aes128) [1, 2, 3]).2 =
      (CRYPTO_DATA_PADDING [1, 2, 3] 16).length ∧
    (CRYPTO_DATA_PADDING [1, 2, 3] 16).length % 16 = 0 ∧
    fill_with_string_md5sum "secret" 16 ≠ fill_with_string_md5sum "secret" 32 :=
  C8_cross_cipher (fun _ _ b => b) (fun _ _ b => b) (fun _ _ => 0)
    "secret" [1, 2, 3] (fun _ _ _ => rfl)

/-- C9: every descriptor in the static table, and hence every successful
registry lookup, satisfies the asserted bounds key_length at most
CRYPTO_MAX_KEY_SIZE and IV length at most CRYPTO_MAX_BLOCK_SIZE, so the
assertion failure branch of get_crypto_type is unreachable. -/
theorem C9_descriptor_bounds :
    (∀ p ∈ cipher_pairs, evp_key_length p.2 ≤ CRYPTO_MAX_KEY_SIZE ∧
        evp_iv_length p.2 ≤ CRYPTO_MAX_BLOCK_SIZE) ∧
    (∀ (name : String) (cid : CipherId), get_crypto_type name = some cid →
        evp_key_length cid ≤ CRYPTO_MAX_KEY_SIZE ∧
        evp_iv_length cid ≤ CRYPTO_MAX_BLOCK_SIZE) := by
  refine ⟨by decide, ?_⟩
  intro name cid _
  cases cid <;> exact ⟨by decide, by decide⟩

/-- Witness for C9 at the descriptor resolved for des. -/
theorem C9_descriptor_bounds_witness :
    evp_key_length CipherId.des ≤ CRYPTO_MAX_KEY_SIZE ∧
    evp_iv_length CipherId.des ≤ CRYPTO_MAX_BLOCK_SIZE :=
  C9_descriptor_bounds.2 "des" CipherId.des (by decide)

/-- C10: datagram_decrypt zero-pads its own input before decrypting,
running exactly the same CRYPTO_DATA_PADDING step as datagram_encrypt:
an input whose length is not a multiple of the effective block size gets
the zero bytes appended by the engine itself. -/
theorem C10_decrypt_pads_input (c : EVPCipher) (key input : List Nat) :
    datagram_decrypt key c input =
      (c.decryptUpdate key (crypto_ivec_initdata.take (effective_iv_len c))
          (CRYPTO_DATA_PADDING input (effective_iv_len c)),
        (c.decryptUpdate key (crypto_ivec_initdata.take (effective_iv_len c))
          (CRYPTO_DATA_PADDING input (effective_iv_len c))).length) ∧
    datagram_encrypt key c input =
      (c.encryptUpdate key (crypto_ivec_initdata.take (effective_iv_len c))
          (CRYPTO_DATA_PADDING input (effective_iv_len c)),
        (c.encryptUpdate key (crypto_ivec_initdata.take (effective_iv_len c))
          (CRYPTO_DATA_PADDING input (effective_iv_len c))).length) ∧
    CRYPTO_DATA_PADDING input (effective_iv_len c) =
      input ++ List.replicate
        (if input.length % effective_iv_len c = 0 then 0
         else effective_iv_len c - input.length % effective_iv_len c) 0 :=
  ⟨rfl, rfl, crypto_data_padding_eq_append input (effective_iv_len c)⟩
